import Mathlib

/-!
Shallow embedding of the Employee Time Clock Analysis System (src/main.py)
and verification of its natural-language specification.

Dates are modelled as integers counting days; `d % 7` is the weekday with
`0 = Monday`, matching Python's `date.weekday()` (so day 0 stands for a
Monday such as 2024-01-01).  Times of day are minutes from midnight, as in
the source.  All punch records carry the raw string fields the source keeps
(`in_time_str`, `out_time_str`, `in_date`, `out_date`).
-/

namespace TimeClock

/-! ### Data model: processed punch records (src/main.py, process_data) -/

structure PunchRecord where
  employee : String
  date : Int
  inMinutes : Int
  outMinutes : Int
  inTimeStr : String
  outTimeStr : String
  inDate : String
  outDate : String
  deriving DecidableEq, Repr

/-- Standard schedule parameters (src/main.py, TimeClockAnalyzer.__init__). -/
def EXPECTED_MORNING_ARRIVAL : Int := 8 * 60

def EXPECTED_LUNCH_DEPARTURE : Int := 12 * 60

def EXPECTED_LUNCH_RETURN : Int := 12 * 60 + 30

def EXPECTED_END_TIME_1 : Int := 16 * 60

def EXPECTED_END_TIME_2 : Int := 16 * 60 + 30

def BUFFER_MINUTES : Int := 7

/-! ### Stable sorting, as Python's `sort`/`sort_values` (extensionally:
any stable sort by a total preorder computes the same list). -/

def insertLe (le : α → α → Bool) (x : α) : List α → List α
  | [] => [x]
  | y :: ys => if le x y then x :: y :: ys else y :: insertLe le x ys

def sortLe (le : α → α → Bool) : List α → List α
  | [] => []
  | x :: xs => insertLe le x (sortLe le xs)

theorem insertLe_perm (le : α → α → Bool) (x : α) (l : List α) :
    List.Perm (insertLe le x l) (x :: l) := by
  induction l with
  | nil => simp [insertLe]
  | cons y ys ih =>
    simp only [insertLe]
    split
    · exact List.Perm.refl _
    · exact List.Perm.trans (List.Perm.cons y ih) (List.Perm.swap x y ys)

theorem sortLe_perm (le : α → α → Bool) (l : List α) :
    List.Perm (sortLe le l) l := by
  induction l with
  | nil => simp [sortLe]
  | cons x xs ih =>
    exact List.Perm.trans (insertLe_perm le x (sortLe le xs)) (List.Perm.cons x ih)

theorem insertLe_pairwise (le : α → α → Bool)
    (htot : ∀ a b, le a b = true ∨ le b a = true)
    (htrans : ∀ a b c, le a b = true → le b c = true → le a c = true)
    (x : α) (l : List α)
    (hl : l.Pairwise (fun a b => le a b = true)) :
    (insertLe le x l).Pairwise (fun a b => le a b = true) := by
  induction l with
  | nil => simp [insertLe]
  | cons y ys ih =>
    simp only [insertLe]
    rcases List.pairwise_cons.mp hl with ⟨hy, hys⟩
    split
    · rename_i hxy
      refine List.pairwise_cons.mpr ⟨?_, hl⟩
      intro b hb
      rcases List.mem_cons.mp hb with hb | hb
      · exact hb ▸ hxy
      · exact htrans x y b hxy (hy b hb)
    · rename_i hxy
      refine List.pairwise_cons.mpr ⟨?_, ih hys⟩
      intro b hb
      have hb' := (insertLe_perm le x ys).mem_iff.mp hb
      rcases List.mem_cons.mp hb' with hb' | hb'
      · subst hb'
        rcases htot b y with h | h
        · exact absurd h (by simpa using hxy)
        · exact h
      · exact hy b hb'

theorem sortLe_pairwise (le : α → α → Bool)
    (htot : ∀ a b, le a b = true ∨ le b a = true)
    (htrans : ∀ a b c, le a b = true → le b c = true → le a c = true)
    (l : List α) :
    (sortLe le l).Pairwise (fun a b => le a b = true) := by
  induction l with
  | nil => simp [sortLe]
  | cons x xs ih => exact insertLe_pairwise le htot htrans x (sortLe le xs) ih

theorem sortLe_length (le : α → α → Bool) (l : List α) :
    (sortLe le l).length = l.length :=
  (sortLe_perm le l).length_eq

theorem sortLe_mem (le : α → α → Bool) (l : List α) (x : α) :
    x ∈ sortLe le l ↔ x ∈ l :=
  (sortLe_perm le l).mem_iff

/-- Sorting a singleton. -/
theorem sortLe_singleton (le : α → α → Bool) (a : α) : sortLe le [a] = [a] := rfl

/-- Sorting a two-element list that is already in order. -/
theorem sortLe_pair (le : α → α → Bool) (a b : α) (h : le a b = true) :
    sortLe le [a, b] = [a, b] := by
  simp [sortLe, insertLe, h]

/-! ### Period Segmenter (src/main.py, create_two_week_periods) -/

/-- The walk `while current_date.weekday() != 0: current_date -= 1`,
written with an explicit fuel of 7 (a weekday is in 0..6, so the loop body
runs at most 6 times). -/
def backToMondayFuel : Nat → Int → Int
  | 0, d => d
  | k + 1, d => if d % 7 = 0 then d else backToMondayFuel k (d - 1)

def backToMonday (d : Int) : Int := backToMondayFuel 7 d

theorem backToMondayFuel_eq (k : Nat) (d : Int) (h : d % 7 < k) :
    backToMondayFuel k d = d - d % 7 := by
  induction k generalizing d with
  | zero => omega
  | succ k ih =>
    simp only [backToMondayFuel]
    split
    · omega
    · rw [ih (d - 1) (by omega)]
      omega

theorem backToMonday_eq (d : Int) : backToMonday d = d - d % 7 :=
  backToMondayFuel_eq 7 d (by omega)

/-- A period record: `start`/`stop` are the `'start'`/`'end'` dict entries of
the source (the label string derived from them is presentation only). -/
structure Period where
  start : Int
  stop : Int
  deriving DecidableEq, Repr

/-- The loop `while current_date <= max_date: periods.append(...)`,
emitting `[cursor, cursor+13]` windows and stepping the cursor by 14. -/
def mkPeriods (cursor maxDate : Int) : List Period :=
  if cursor ≤ maxDate then ⟨cursor, cursor + 13⟩ :: mkPeriods (cursor + 14) maxDate
  else []
termination_by (maxDate + 1 - cursor).toNat
decreasing_by simp_wf; omega

def create_two_week_periods (minDate maxDate : Int) : List Period :=
  mkPeriods (backToMonday minDate) maxDate

theorem mkPeriods_of_le {cursor maxDate : Int} (h : cursor ≤ maxDate) :
    mkPeriods cursor maxDate =
      ⟨cursor, cursor + 13⟩ :: mkPeriods (cursor + 14) maxDate := by
  rw [mkPeriods]
  simp [h]

theorem mkPeriods_of_gt {cursor maxDate : Int} (h : maxDate < cursor) :
    mkPeriods cursor maxDate = [] := by
  rw [mkPeriods]
  rw [if_neg (show ¬ cursor ≤ maxDate by omega)]

theorem mem_mkPeriods {cursor maxDate : Int} {p : Period}
    (hp : p ∈ mkPeriods cursor maxDate) :
    p.stop = p.start + 13 ∧ cursor ≤ p.start ∧ p.start ≤ maxDate ∧
      (p.start - cursor) % 14 = 0 := by
  by_cases h : cursor ≤ maxDate
  · rw [mkPeriods_of_le h] at hp
    rcases List.mem_cons.mp hp with hp | hp
    · subst hp; simp; omega
    · have := mem_mkPeriods hp
      refine ⟨this.1, by omega, this.2.2.1, ?_⟩
      omega
  · rw [mkPeriods_of_gt (by omega)] at hp
    simp at hp
termination_by (maxDate + 1 - cursor).toNat
decreasing_by simp_wf; omega

theorem mkPeriods_chain (cursor maxDate : Int) :
    (mkPeriods cursor maxDate).Chain' (fun p q => q.start = p.stop + 1) := by
  by_cases h : cursor ≤ maxDate
  · rw [mkPeriods_of_le h]
    refine List.chain'_cons'.mpr ⟨?_, mkPeriods_chain (cursor + 14) maxDate⟩
    intro q hq
    by_cases h2 : cursor + 14 ≤ maxDate
    · rw [mkPeriods_of_le h2] at hq
      simp at hq
      subst hq
      simp
      omega
    · rw [mkPeriods_of_gt (by omega)] at hq
      simp at hq
  · rw [mkPeriods_of_gt (by omega)]
    simp
termination_by (maxDate + 1 - cursor).toNat
decreasing_by simp_wf; omega

theorem mkPeriods_pairwise (cursor maxDate : Int) :
    (mkPeriods cursor maxDate).Pairwise (fun p q => p.stop < q.start) := by
  by_cases h : cursor ≤ maxDate
  · rw [mkPeriods_of_le h]
    refine List.pairwise_cons.mpr ⟨?_, mkPeriods_pairwise (cursor + 14) maxDate⟩
    intro q hq
    have := mem_mkPeriods hq
    simp
    omega
  · rw [mkPeriods_of_gt (by omega)]
    simp
termination_by (maxDate + 1 - cursor).toNat
decreasing_by simp_wf; omega

theorem getLast?_cons_of_some {α : Type} {a pl : α} {l : List α}
    (h : l.getLast? = some pl) : (a :: l).getLast? = some pl := by
  cases l with
  | nil => simp at h
  | cons b t => rw [List.getLast?_cons_cons]; exact h

theorem mkPeriods_getLast {cursor maxDate : Int} (h : cursor ≤ maxDate) :
    ∃ pl, (mkPeriods cursor maxDate).getLast? = some pl ∧
      pl.start ≤ maxDate ∧ maxDate ≤ pl.stop := by
  rw [mkPeriods_of_le h]
  by_cases h2 : cursor + 14 ≤ maxDate
  · rcases mkPeriods_getLast h2 with ⟨pl, hpl, h1, h2'⟩
    exact ⟨pl, getLast?_cons_of_some hpl, h1, h2'⟩
  · rw [mkPeriods_of_gt (by omega)]
    exact ⟨⟨cursor, cursor + 13⟩, rfl, h, by simp; omega⟩
termination_by (maxDate + 1 - cursor).toNat
decreasing_by simp_wf; omega

/-! ### Anomaly Detector (src/main.py, analyze_employee_period) -/

inductive Severity
  | high
  | medium
  | low
  deriving DecidableEq, Repr

inductive AnomalyType
  | missed_day
  | date_mismatch
  | incomplete_day
  | late_arrival
  | irregular_lunch_departure
  | late_lunch_return
  | irregular_end_time
  | extra_punches
  deriving DecidableEq, Repr

/-- One anomaly dict.  The human `description` string is presentation and is
not modelled, except for the two numbers the source interpolates that carry
analysis content: `minutesLate` is the `minutes_late` key of `late_arrival`
and `late_lunch_return` anomalies, and `extraCount` is the `extra_punches`
local (`len(day_records) - 2`) written into the `extra_punches` description. -/
structure Anomaly where
  atype : AnomalyType
  date : Int
  severity : Severity
  minutesLate : Option Int := none
  extraCount : Option Int := none
  deriving DecidableEq, Repr

/-- The `while current_date <= period['end']` date walk, with an explicit
fuel equal to the number of iterations left (so the definition is
structurally recursive and evaluates by kernel reduction). -/
def dateRangeFuel : Nat → Int → Int → List Int
  | 0, _, _ => []
  | Nat.succ n, lo, hi => if lo ≤ hi then lo :: dateRangeFuel n (lo + 1) hi else []

/-- All dates from `lo` to `hi` inclusive. -/
def dateRange (lo hi : Int) : List Int :=
  dateRangeFuel (hi + 1 - lo).toNat lo hi

theorem dateRange_of_le {lo hi : Int} (h : lo ≤ hi) :
    dateRange lo hi = lo :: dateRange (lo + 1) hi := by
  have h1 : (hi + 1 - lo).toNat = (hi + 1 - (lo + 1)).toNat + 1 := by omega
  rw [dateRange, h1]
  simp only [dateRangeFuel, if_pos h]
  rw [dateRange]

theorem dateRange_of_gt {lo hi : Int} (h : hi < lo) : dateRange lo hi = [] := by
  have h1 : (hi + 1 - lo).toNat = 0 := by omega
  rw [dateRange, h1]
  rfl

theorem mem_dateRange {lo hi : Int} (d : Int) :
    d ∈ dateRange lo hi ↔ lo ≤ d ∧ d ≤ hi := by
  by_cases h : lo ≤ hi
  · rw [dateRange_of_le h, List.mem_cons, mem_dateRange d]
    omega
  · rw [dateRange_of_gt (by omega)]
    simp
    omega
termination_by (hi + 1 - lo).toNat
decreasing_by simp_wf; omega

theorem dateRange_nodup (lo hi : Int) : (dateRange lo hi).Nodup := by
  by_cases h : lo ≤ hi
  · rw [dateRange_of_le h]
    refine List.nodup_cons.mpr ⟨?_, dateRange_nodup (lo + 1) hi⟩
    intro hmem
    have := (mem_dateRange lo).mp hmem
    omega
  · rw [dateRange_of_gt (by omega)]
    simp
termination_by (hi + 1 - lo).toNat
decreasing_by simp_wf; omega

/-- Expected work days of a period: the Monday–Friday dates inside
`[pstart, pend]` (`current_date.weekday() < 5`). -/
def expectedWorkDays (pstart pend : Int) : List Int :=
  (dateRange pstart pend).filter (fun d => decide (d % 7 < 5))

theorem mem_expectedWorkDays {pstart pend d : Int} :
    d ∈ expectedWorkDays pstart pend ↔ pstart ≤ d ∧ d ≤ pend ∧ d % 7 < 5 := by
  simp [expectedWorkDays, List.mem_filter, mem_dateRange]
  tauto

theorem expectedWorkDays_nodup (pstart pend : Int) :
    (expectedWorkDays pstart pend).Nodup :=
  (dateRange_nodup pstart pend).filter _

/-- `self.processed_data[...]` row filter for one employee and one period. -/
def periodRecords (data : List PunchRecord) (employee : String)
    (pstart pend : Int) : List PunchRecord :=
  data.filter (fun r =>
    decide (r.employee = employee) && decide (pstart ≤ r.date) &&
      decide (r.date ≤ pend))

/-- The group keys of `period_data.groupby('date')` — the distinct worked
dates, in ascending order (pandas sorts group keys). -/
def workedDatesList (recs : List PunchRecord) : List Int :=
  sortLe (fun a b => decide (a ≤ b)) (recs.map (fun r => r.date)).dedup

theorem mem_workedDatesList {recs : List PunchRecord} {d : Int} :
    d ∈ workedDatesList recs ↔ ∃ r ∈ recs, r.date = d := by
  rw [workedDatesList, sortLe_mem, List.mem_dedup, List.mem_map]

theorem workedDatesList_nodup (recs : List PunchRecord) :
    (workedDatesList recs).Nodup :=
  ((sortLe_perm _ _).nodup_iff).mpr (List.nodup_dedup _)

/-- One day's punch pairs, sorted by in-time
(`day_data.sort_values('in_time_minutes')`). -/
def dayRecords (recs : List PunchRecord) (d : Int) : List PunchRecord :=
  sortLe (fun a b => decide (a.inMinutes ≤ b.inMinutes))
    (recs.filter (fun r => decide (r.date = d)))

/-- The `missed_day` block: one high anomaly per expected work day not in
the worked-dates set (the source loop appends one anomaly per expected
date failing the membership test, which is this filter-then-map). -/
def missedDayAnoms (expected worked : List Int) : List Anomaly :=
  (expected.filter (fun d => decide (d ∉ worked))).map
    (fun d => ⟨.missed_day, d, .high, none, none⟩)

/-- The per-record `date_mismatch` loop. -/
def dateMismatchAnoms (recs : List PunchRecord) (d : Int) : List Anomaly :=
  recs.filterMap (fun r =>
    if r.inDate ≠ r.outDate then some ⟨.date_mismatch, d, .medium, none, none⟩
    else none)

/-- The `len(day_records) == 2` branch: the first pair is `morning_record`,
the second `afternoon_record`, positionally. -/
def twoPairAnoms (morning afternoon : PunchRecord) (d : Int) : List Anomaly :=
  (if morning.inMinutes > EXPECTED_MORNING_ARRIVAL + BUFFER_MINUTES then
    [⟨.late_arrival, d, .medium,
      some (morning.inMinutes - EXPECTED_MORNING_ARRIVAL), none⟩]
  else []) ++
  (if |morning.outMinutes - EXPECTED_LUNCH_DEPARTURE| > BUFFER_MINUTES then
    [⟨.irregular_lunch_departure, d, .low, none, none⟩]
  else []) ++
  (if afternoon.inMinutes > EXPECTED_LUNCH_RETURN + BUFFER_MINUTES then
    [⟨.late_lunch_return, d, .medium,
      some (afternoon.inMinutes - EXPECTED_LUNCH_RETURN), none⟩]
  else []) ++
  (if ¬(|afternoon.outMinutes - EXPECTED_END_TIME_1| ≤ BUFFER_MINUTES ∨
        |afternoon.outMinutes - EXPECTED_END_TIME_2| ≤ BUFFER_MINUTES) then
    [⟨.irregular_end_time, d, .low, none, none⟩]
  else [])

/-- The `if len(day_records) == 1 / elif == 2 / elif > 2` chain. -/
def pairCountAnoms (recs : List PunchRecord) (d : Int) : List Anomaly :=
  if recs.length = 1 then [⟨.incomplete_day, d, .medium, none, none⟩]
  else if recs.length = 2 then
    match recs with
    | a :: b :: _ => twoPairAnoms a b d
    | _ => []
  else if recs.length > 2 then
    [⟨.extra_punches, d, .low, none, some ((recs.length : Int) - 2)⟩]
  else []

/-- Anomalies of one worked day (`recs` already sorted by in-time):
per-record date mismatches, then the punch-pair-count branch. -/
def dayAnomalies (recs : List PunchRecord) (d : Int) : List Anomaly :=
  dateMismatchAnoms recs d ++ pairCountAnoms recs d

/-- The score loop: `+10` for high, `+5` for medium, else `+2`. -/
def scoreOf (anoms : List Anomaly) : Int :=
  anoms.foldl (fun s a =>
    if a.severity = .high then s + 10
    else if a.severity = .medium then s + 5
    else s + 2) 0

structure PeriodResult where
  employee : String
  anomalies : List Anomaly
  score : Int
  totalDays : Nat
  workedDays : Nat
  missedDays : Int
  deriving DecidableEq, Repr

/-- Anomaly list of a non-empty (employee, period): the missed-day block
followed by the per-worked-day anomalies, in date order. -/
def analyzePeriodAnoms (recs : List PunchRecord) (pstart pend : Int) :
    List Anomaly :=
  missedDayAnoms (expectedWorkDays pstart pend) (workedDatesList recs) ++
    (workedDatesList recs).flatMap (fun d => dayAnomalies (dayRecords recs d) d)

def analyze_employee_period (data : List PunchRecord) (employee : String)
    (pstart pend : Int) : PeriodResult :=
  if periodRecords data employee pstart pend = [] then
    { employee := employee, anomalies := [], score := 0,
      totalDays := 0, workedDays := 0, missedDays := 0 }
  else
    { employee := employee,
      anomalies := analyzePeriodAnoms (periodRecords data employee pstart pend)
        pstart pend,
      score := scoreOf (analyzePeriodAnoms (periodRecords data employee pstart pend)
        pstart pend),
      totalDays := (expectedWorkDays pstart pend).length,
      workedDays := (workedDatesList (periodRecords data employee pstart pend)).length,
      missedDays := ((expectedWorkDays pstart pend).length : Int) -
        ((workedDatesList (periodRecords data employee pstart pend)).length : Int) }

theorem analyze_employee_period_of_ne {data : List PunchRecord}
    {employee : String} {pstart pend : Int}
    (h : periodRecords data employee pstart pend ≠ []) :
    analyze_employee_period data employee pstart pend =
      { employee := employee,
        anomalies := analyzePeriodAnoms (periodRecords data employee pstart pend)
          pstart pend,
        score := scoreOf (analyzePeriodAnoms (periodRecords data employee pstart pend)
          pstart pend),
        totalDays := (expectedWorkDays pstart pend).length,
        workedDays :=
          (workedDatesList (periodRecords data employee pstart pend)).length,
        missedDays := ((expectedWorkDays pstart pend).length : Int) -
          ((workedDatesList (periodRecords data employee pstart pend)).length : Int) } := by
  rw [analyze_employee_period, if_neg h]

/-! ### Scorer/Aggregator (src/main.py, generate_report) -/

/-- `np.mean([result['score'] for result in periods.values()])`, in exact
rational arithmetic (the scores are small integers, so the float mean is
exact up to rounding that can never cross the integer threshold 15). -/
def avgScoreOf (prs : List PeriodResult) : ℚ :=
  ((prs.map (fun r => (r.score : ℚ))).sum) / (prs.length : ℚ)

/-- `sum(1 for result in periods.values() if result['score'] >= 20)`. -/
def highScorePeriodsOf (prs : List PeriodResult) : Nat :=
  (prs.filter (fun r => decide (20 ≤ r.score))).length

structure OffenderEntry where
  employee : String
  avgScore : ℚ
  highScorePeriods : Nat
  totalAnomalies : Nat
  deriving DecidableEq, Repr

def mkOffenderEntry (e : String) (prs : List PeriodResult) : OffenderEntry :=
  { employee := e, avgScore := avgScoreOf prs,
    highScorePeriods := highScorePeriodsOf prs,
    totalAnomalies := (prs.map (fun r => r.anomalies.length)).sum }

/-- The offender collection loop:
`if high_score_periods >= 2 or avg_score >= 15: systematic_offenders.append(...)`. -/
def systematic_offenders (results : List (String × List PeriodResult)) :
    List OffenderEntry :=
  results.filterMap (fun er =>
    if 2 ≤ highScorePeriodsOf er.2 ∨ 15 ≤ avgScoreOf er.2 then
      some (mkOffenderEntry er.1 er.2)
    else none)

/-- `systematic_offenders.sort(key=lambda x: x['avg_score'], reverse=True)`. -/
def sorted_offenders (results : List (String × List PeriodResult)) :
    List OffenderEntry :=
  sortLe (fun a b => decide (b.avgScore ≤ a.avgScore))
    (systematic_offenders results)

/-- `for offender in systematic_offenders[:5]` — the employees surfaced in
the summary section of the report. -/
def top_offenders (results : List (String × List PeriodResult)) :
    List OffenderEntry :=
  (sorted_offenders results).take 5

/-! ### Slot Classifier (src/main.py, generate_detailed_punch_heatmap) -/

/-- The four punch-time cells of one (employee, day) row. -/
structure DayCells where
  mornIn : String
  mornOut : String
  aftIn : String
  aftOut : String
  deriving DecidableEq, Repr

/-- The four cell colors of one (employee, day) row. -/
structure DayColors where
  mornIn : String
  mornOut : String
  aftIn : String
  aftOut : String
  deriving DecidableEq, Repr

def COLOR_ACCEPTABLE : String := "#228B22"

def COLOR_MINOR : String := "#DAA520"

def COLOR_MAJOR : String := "#FF6600"

def COLOR_SIGNIFICANT : String := "#DC143C"

def COLOR_MISSED_OUT : String := "#9932CC"

def COLOR_FLAGGED : String := "#FFB6C1"

def COLOR_MISSING : String := "#F8F8F8"

def COLOR_ABSENT : String := "#D3D3D3"

/-- One (employee, date) of the heat-map builder, for an employee-day whose
punch pairs (already sorted by in-time) are `records`; `records = []` is the
absent branch.  The severity if-chains are written inline for each slot,
as in the source. -/
def heatmapDay (records : List PunchRecord) : DayCells × DayColors :=
  match records with
  | [] =>
    (⟨"N/A", "N/A", "N/A", "N/A"⟩,
     ⟨COLOR_ABSENT, COLOR_ABSENT, COLOR_ABSENT, COLOR_ABSENT⟩)
  | first :: rest =>
    let flagged := (first :: rest).length > 2
    let dflt := if flagged then COLOR_FLAGGED else COLOR_MISSING
    if first.inMinutes < 660 then
      let cells0 : DayCells := ⟨first.inTimeStr, first.outTimeStr, "", ""⟩
      let colors0 : DayColors :=
        if flagged then ⟨dflt, dflt, dflt, dflt⟩
        else
          ⟨(if |first.inMinutes - EXPECTED_MORNING_ARRIVAL| ≤ 5 then COLOR_ACCEPTABLE
            else if |first.inMinutes - EXPECTED_MORNING_ARRIVAL| ≤ 7 then COLOR_MINOR
            else if |first.inMinutes - EXPECTED_MORNING_ARRIVAL| ≤ 11 then COLOR_MAJOR
            else COLOR_SIGNIFICANT),
           (if first.inDate ≠ first.outDate then COLOR_MISSED_OUT
            else if |first.outMinutes - EXPECTED_LUNCH_DEPARTURE| ≤ 5 then COLOR_ACCEPTABLE
            else if |first.outMinutes - EXPECTED_LUNCH_DEPARTURE| ≤ 7 then COLOR_MINOR
            else if |first.outMinutes - EXPECTED_LUNCH_DEPARTURE| ≤ 11 then COLOR_MAJOR
            else COLOR_SIGNIFICANT),
           dflt, dflt⟩
      match rest with
      | [] => (cells0, colors0)
      | second :: _ =>
        let cells1 : DayCells :=
          { cells0 with aftIn := second.inTimeStr, aftOut := second.outTimeStr }
        let colors1 : DayColors :=
          if flagged then colors0
          else
            { colors0 with
              aftIn :=
                (if |second.inMinutes - EXPECTED_LUNCH_RETURN| ≤ 5 then COLOR_ACCEPTABLE
                 else if |second.inMinutes - EXPECTED_LUNCH_RETURN| ≤ 7 then COLOR_MINOR
                 else if |second.inMinutes - EXPECTED_LUNCH_RETURN| ≤ 11 then COLOR_MAJOR
                 else COLOR_SIGNIFICANT),
              aftOut :=
                (if second.inDate ≠ second.outDate then COLOR_MISSED_OUT
                 else if min (|second.outMinutes - EXPECTED_END_TIME_1|)
                     (|second.outMinutes - EXPECTED_END_TIME_2|) ≤ 5 then COLOR_ACCEPTABLE
                 else if min (|second.outMinutes - EXPECTED_END_TIME_1|)
                     (|second.outMinutes - EXPECTED_END_TIME_2|) ≤ 7 then COLOR_MINOR
                 else if min (|second.outMinutes - EXPECTED_END_TIME_1|)
                     (|second.outMinutes - EXPECTED_END_TIME_2|) ≤ 11 then COLOR_MAJOR
                 else COLOR_SIGNIFICANT) }
        (cells1, colors1)
    else
      let cells0 : DayCells := ⟨"", "", first.inTimeStr, first.outTimeStr⟩
      let colors0 : DayColors :=
        if flagged then ⟨dflt, dflt, dflt, dflt⟩
        else
          ⟨dflt, dflt,
           (if |first.inMinutes - EXPECTED_LUNCH_RETURN| ≤ 5 then COLOR_ACCEPTABLE
            else if |first.inMinutes - EXPECTED_LUNCH_RETURN| ≤ 7 then COLOR_MINOR
            else if |first.inMinutes - EXPECTED_LUNCH_RETURN| ≤ 11 then COLOR_MAJOR
            else COLOR_SIGNIFICANT),
           (if first.inDate ≠ first.outDate then COLOR_MISSED_OUT
            else if min (|first.outMinutes - EXPECTED_END_TIME_1|)
                (|first.outMinutes - EXPECTED_END_TIME_2|) ≤ 5 then COLOR_ACCEPTABLE
            else if min (|first.outMinutes - EXPECTED_END_TIME_1|)
                (|first.outMinutes - EXPECTED_END_TIME_2|) ≤ 7 then COLOR_MINOR
            else if min (|first.outMinutes - EXPECTED_END_TIME_1|)
                (|first.outMinutes - EXPECTED_END_TIME_2|) ≤ 11 then COLOR_MAJOR
            else COLOR_SIGNIFICANT)⟩
      (cells0, colors0)

/-- The full per-day pipeline: `day_data.sort_values('in_time_minutes')`
then the slot assignment above. -/
def generate_detailed_punch_heatmap_day (recs : List PunchRecord) :
    DayCells × DayColors :=
  heatmapDay (sortLe (fun a b => decide (a.inMinutes ≤ b.inMinutes)) recs)

def flagNoteText : String := "Flagged: Additional\nPunches Detected"

/-- The cell-text decision of the page renderer (src/main.py lines 722-783,
spacing rows aside): a nonempty stored punch time is replaced by the flag
note when the cell is pink and sits in the end-of-day column; an empty
stored time renders as `N/A`. -/
def cellText (punchTime color : String) (endOfDayColumn : Bool) : String :=
  if punchTime ≠ "" then
    if color = COLOR_FLAGGED ∧ endOfDayColumn then flagNoteText else punchTime
  else "N/A"

/-! ### Time Normalizer (src/main.py, time_to_minutes) -/

/-- The ASCII whitespace characters `str.strip` removes. -/
def isPySpace (c : Char) : Bool :=
  c = ' ' ∨ c = '\t' ∨ c = '\n' ∨ c = '\r' ∨ c = '\x0b' ∨ c = '\x0c'

/-- `str.strip()`. -/
def pyStrip (l : List Char) : List Char :=
  ((l.dropWhile isPySpace).reverse.dropWhile isPySpace).reverse

/-- `str.split(sep)` for a one-character separator. -/
def splitOnChar (sep : Char) : List Char → List (List Char)
  | [] => [[]]
  | c :: cs =>
    match splitOnChar sep cs with
    | [] => [[]]
    | g :: gs => if c = sep then [] :: g :: gs else (c :: g) :: gs

/-- Decimal value of a digit string. -/
def digitsVal (l : List Char) : Nat :=
  l.foldl (fun acc c => 10 * acc + (c.toNat - 48)) 0

/-- A nonempty all-digit string, parsed. -/
def pyDigits (l : List Char) : Option Nat :=
  if l ≠ [] ∧ l.all Char.isDigit then some (digitsVal l) else none

/-- Python `int(s)`: surrounding whitespace stripped, optional sign, then a
nonempty digit string (digit-group underscores are not modelled). -/
def pyInt (l : List Char) : Option Int :=
  match pyStrip l with
  | [] => none
  | d :: ds =>
    if d = '-' then (pyDigits ds).map (fun k => -(k : Int))
    else if d = '+' then (pyDigits ds).map (fun k => (k : Int))
    else (pyDigits (d :: ds)).map (fun k => (k : Int))

/-- `time_to_minutes`: strip and lowercase, demand a trailing `a`/`p`,
split the remainder on `:` into exactly two `int(...)`-parsable fields
(otherwise the `except` returns `None`), then apply the am/pm mapping. -/
def time_to_minutes (s : String) : Option Int :=
  let t := (pyStrip s.data).map Char.toLower
  match t.getLast? with
  | none => none
  | some c =>
    if c = 'a' ∨ c = 'p' then
      match splitOnChar ':' t.dropLast with
      | [hPart, mPart] =>
        match pyInt hPart, pyInt mPart with
        | some hours, some minutes =>
          let hours2 : Int :=
            if c = 'p' ∧ hours ≠ 12 then hours + 12
            else if c = 'a' ∧ hours = 12 then 0
            else hours
          some (hours2 * 60 + minutes)
        | _, _ => none
      | _ => none
    else none

/-! ## Claim theorems -/

theorem mkPeriods_length_one {cursor maxDate : Int} (h1 : cursor ≤ maxDate)
    (h2 : maxDate < cursor + 14) : (mkPeriods cursor maxDate).length = 1 := by
  rw [mkPeriods_of_le h1, mkPeriods_of_gt h2]
  rfl

/-- C9: `create_two_week_periods` walks the minimum date back to the most
recent Monday and emits `[cursor, cursor+13]` windows stepped by 14 until
the cursor passes the maximum date; the periods are 14 days long,
Monday-aligned, contiguous, non-overlapping, the first contains the
minimum date, the last contains the maximum date, and a single day of data
yields exactly one period. -/
theorem create_two_week_periods_correct (minDate maxDate : Int)
    (hle : minDate ≤ maxDate) :
    (∀ p ∈ create_two_week_periods minDate maxDate,
        p.stop = p.start + 13 ∧ p.start % 7 = 0) ∧
    (create_two_week_periods minDate maxDate).Chain'
      (fun p q => q.start = p.stop + 1) ∧
    (create_two_week_periods minDate maxDate).Pairwise
      (fun p q => p.stop < q.start) ∧
    (∃ p0 rest, create_two_week_periods minDate maxDate = p0 :: rest ∧
        p0.start ≤ minDate ∧ minDate ≤ p0.stop) ∧
    (∃ pl, (create_two_week_periods minDate maxDate).getLast? = some pl ∧
        pl.start ≤ maxDate ∧ maxDate ≤ pl.stop) ∧
    (minDate = maxDate → (create_two_week_periods minDate maxDate).length = 1) := by
  have hmod : 0 ≤ minDate % 7 ∧ minDate % 7 < 7 := by omega
  have hmon : backToMonday minDate = minDate - minDate % 7 := backToMonday_eq minDate
  have hmonle : backToMonday minDate ≤ maxDate := by omega
  refine ⟨?_, mkPeriods_chain _ _, mkPeriods_pairwise _ _, ?_, ?_, ?_⟩
  · intro p hp
    have h := mem_mkPeriods hp
    refine ⟨h.1, ?_⟩
    omega
  · rw [create_two_week_periods, mkPeriods_of_le hmonle]
    exact ⟨_, _, rfl, by simp; omega, by simp; omega⟩
  · exact mkPeriods_getLast hmonle
  · intro heq
    rw [create_two_week_periods]
    exact mkPeriods_length_one hmonle (by omega)

/-- Witness for C9 at the spec's own test point: minimum date Wednesday
2024-01-10 (day 9 with day 0 = Monday 2024-01-01), no later data. -/
theorem create_two_week_periods_correct_witness :
    (9 : Int) ≤ 9 ∧
    ((∀ p ∈ create_two_week_periods 9 9, p.stop = p.start + 13 ∧ p.start % 7 = 0) ∧
    (create_two_week_periods 9 9).Chain' (fun p q => q.start = p.stop + 1) ∧
    (create_two_week_periods 9 9).Pairwise (fun p q => p.stop < q.start) ∧
    (∃ p0 rest, create_two_week_periods 9 9 = p0 :: rest ∧
        p0.start ≤ 9 ∧ 9 ≤ p0.stop) ∧
    (∃ pl, (create_two_week_periods 9 9).getLast? = some pl ∧
        pl.start ≤ 9 ∧ 9 ≤ pl.stop) ∧
    ((9 : Int) = 9 → (create_two_week_periods 9 9).length = 1)) :=
  ⟨by decide, create_two_week_periods_correct 9 9 (by decide)⟩

/-- The severity weight table of the spec (§3). -/
def severityWeight : Severity → Int
  | .high => 10
  | .medium => 5
  | .low => 2

theorem scoreOf_foldl (l : List Anomaly) (init : Int) :
    l.foldl (fun s a =>
      if a.severity = .high then s + 10
      else if a.severity = .medium then s + 5
      else s + 2) init =
        init + (l.map (fun a => severityWeight a.severity)).sum := by
  induction l generalizing init with
  | nil => simp
  | cons a t ih =>
    simp only [List.foldl_cons, List.map_cons, List.sum_cons, ih]
    cases h : a.severity <;> simp [h, severityWeight] <;> ring

theorem scoreOf_eq_sum (l : List Anomaly) :
    scoreOf l = (l.map (fun a => severityWeight a.severity)).sum := by
  rw [scoreOf, scoreOf_foldl]
  ring

theorem mem_systematic_offenders {results : List (String × List PeriodResult)}
    {x : OffenderEntry} :
    x ∈ systematic_offenders results ↔
      ∃ er ∈ results, (2 ≤ highScorePeriodsOf er.2 ∨ 15 ≤ avgScoreOf er.2) ∧
        x = mkOffenderEntry er.1 er.2 := by
  simp only [systematic_offenders, List.mem_filterMap]
  constructor
  · rintro ⟨er, hm, hf⟩
    by_cases hc : 2 ≤ highScorePeriodsOf er.2 ∨ 15 ≤ avgScoreOf er.2
    · rw [if_pos hc] at hf
      exact ⟨er, hm, hc, (Option.some.inj hf).symm⟩
    · rw [if_neg hc] at hf
      cases hf
  · rintro ⟨er, hm, hc, rfl⟩
    exact ⟨er, hm, by rw [if_pos hc]⟩

/-- C1: a PeriodResult's score is the sum over its anomalies of
weight(severity) with weight(high)=10, weight(medium)=5, weight(low)=2; an
employee enters the offender list iff at least 2 periods score ≥ 20 or the
mean score is ≥ 15; the list is ordered by descending mean score, and the
summary surfaces exactly its first `min 5 (number of offenders)` entries. -/
theorem systematic_offender_summary_correct :
    (∀ data e ps pe,
        (analyze_employee_period data e ps pe).score =
          ((analyze_employee_period data e ps pe).anomalies.map
            (fun a => severityWeight a.severity)).sum) ∧
    severityWeight .high = 10 ∧ severityWeight .medium = 5 ∧
      severityWeight .low = 2 ∧
    (∀ results (x : OffenderEntry),
        x ∈ sorted_offenders results ↔
          ∃ er ∈ results,
            (2 ≤ highScorePeriodsOf er.2 ∨ 15 ≤ avgScoreOf er.2) ∧
              x = mkOffenderEntry er.1 er.2) ∧
    (∀ results, (sorted_offenders results).Pairwise
        (fun a b => b.avgScore ≤ a.avgScore)) ∧
    (∀ results, top_offenders results = (sorted_offenders results).take 5 ∧
        (top_offenders results).length =
          min 5 (systematic_offenders results).length ∧
        ∀ x ∈ top_offenders results, x ∈ sorted_offenders results) := by
  refine ⟨?_, rfl, rfl, rfl, ?_, ?_, ?_⟩
  · intro data e ps pe
    rw [analyze_employee_period]
    split
    · simp [scoreOf]
    · exact scoreOf_eq_sum _
  · intro results x
    rw [sorted_offenders, sortLe_mem]
    exact mem_systematic_offenders
  · intro results
    have h := sortLe_pairwise (fun a b : OffenderEntry => decide (b.avgScore ≤ a.avgScore))
      (fun a b => by rcases le_total b.avgScore a.avgScore with h | h <;> simp [h])
      (fun a b c hab hbc => by
        simp only [decide_eq_true_eq] at hab hbc ⊢
        exact le_trans hbc hab)
      (systematic_offenders results)
    exact h.imp (fun hab => by simpa using hab)
  · intro results
    refine ⟨rfl, ?_, fun x hx => List.take_subset 5 _ hx⟩
    rw [top_offenders, List.length_take, sorted_offenders, sortLe_length]

/-! Counting anomalies by type (and date). -/

def countType (l : List Anomaly) (t : AnomalyType) : Nat :=
  (l.filter (fun a => decide (a.atype = t))).length

def countTypeAt (l : List Anomaly) (t : AnomalyType) (d : Int) : Nat :=
  (l.filter (fun a => decide (a.atype = t) && decide (a.date = d))).length

theorem countType_append (l1 l2 : List Anomaly) (t : AnomalyType) :
    countType (l1 ++ l2) t = countType l1 t + countType l2 t := by
  simp [countType, List.filter_append]

theorem countTypeAt_append (l1 l2 : List Anomaly) (t : AnomalyType) (d : Int) :
    countTypeAt (l1 ++ l2) t d = countTypeAt l1 t d + countTypeAt l2 t d := by
  simp [countTypeAt, List.filter_append]

theorem countType_eq_zero {l : List Anomaly} {t : AnomalyType}
    (h : ∀ a ∈ l, a.atype ≠ t) : countType l t = 0 := by
  simp only [countType, List.length_eq_zero]
  rw [List.filter_eq_nil]
  intro a ha
  simpa using h a ha

theorem countTypeAt_eq_zero {l : List Anomaly} {t : AnomalyType} {d : Int}
    (h : ∀ a ∈ l, a.atype ≠ t) : countTypeAt l t d = 0 := by
  simp only [countTypeAt, List.length_eq_zero]
  rw [List.filter_eq_nil]
  intro a ha
  simp only [Bool.and_eq_true, decide_eq_true_eq]
  intro hc
  exact h a ha hc.1

theorem mem_dateMismatchAnoms {recs : List PunchRecord} {d : Int} {x : Anomaly}
    (hx : x ∈ dateMismatchAnoms recs d) :
    x = ⟨.date_mismatch, d, .medium, none, none⟩ := by
  simp only [dateMismatchAnoms, List.mem_filterMap] at hx
  rcases hx with ⟨r, _, hf⟩
  by_cases hc : r.inDate ≠ r.outDate
  · rw [if_pos hc] at hf
    exact (Option.some.inj hf).symm
  · rw [if_neg hc] at hf
    cases hf

theorem mem_twoPairAnoms {a b : PunchRecord} {d : Int} {x : Anomaly}
    (hx : x ∈ twoPairAnoms a b d) :
    x.atype = .late_arrival ∨ x.atype = .irregular_lunch_departure ∨
      x.atype = .late_lunch_return ∨ x.atype = .irregular_end_time := by
  simp only [twoPairAnoms, List.mem_append] at hx
  rcases hx with ((hx | hx) | hx) | hx <;>
    · split at hx <;> simp at hx <;> simp [hx]

theorem mem_pairCountAnoms {recs : List PunchRecord} {d : Int} {x : Anomaly}
    (hx : x ∈ pairCountAnoms recs d) :
    x.atype ≠ .date_mismatch ∧ x.atype ≠ .missed_day := by
  simp only [pairCountAnoms] at hx
  split at hx
  · simp at hx
    simp [hx]
  · split at hx
    · rename_i hlen _
      match recs, hx with
      | a :: b :: _, hx =>
        rcases mem_twoPairAnoms hx with h | h | h | h <;> simp [h]
    · split at hx
      · simp at hx
        simp [hx]
      · simp at hx

theorem dateMismatchAnoms_length (recs : List PunchRecord) (d : Int) :
    (dateMismatchAnoms recs d).length =
      (recs.filter (fun r => decide (r.inDate ≠ r.outDate))).length := by
  induction recs with
  | nil => rfl
  | cons r t ih =>
    simp only [dateMismatchAnoms] at ih ⊢
    rw [List.filterMap_cons, List.filter_cons]
    by_cases hc : r.inDate ≠ r.outDate
    · rw [if_pos hc, if_pos (by simpa using hc)]
      simp only [List.length_cons, ih]
    · rw [if_neg hc, if_neg (by simpa using hc)]
      exact ih

theorem countType_dateMismatchAnoms (recs : List PunchRecord) (d : Int) :
    countType (dateMismatchAnoms recs d) .date_mismatch =
      (recs.filter (fun r => decide (r.inDate ≠ r.outDate))).length := by
  rw [countType, List.filter_eq_self.mpr, dateMismatchAnoms_length]
  intro a ha
  simp [mem_dateMismatchAnoms ha]

theorem countType_dateMismatchAnoms_other {recs : List PunchRecord} {d : Int}
    {t : AnomalyType} (ht : t ≠ .date_mismatch) :
    countType (dateMismatchAnoms recs d) t = 0 :=
  countType_eq_zero (fun a ha => by rw [mem_dateMismatchAnoms ha]; exact fun h => ht h.symm)

theorem filter_dateMismatchAnoms_other {recs : List PunchRecord} {d : Int}
    {t : AnomalyType} (ht : t ≠ .date_mismatch) :
    (dateMismatchAnoms recs d).filter (fun a => decide (a.atype = t)) = [] := by
  rw [List.filter_eq_nil_iff]
  intro a ha
  rw [mem_dateMismatchAnoms ha]
  simpa using fun h => ht h.symm

theorem countType_twoPairAnoms_other {a b : PunchRecord} {d : Int}
    {t : AnomalyType} (h1 : t ≠ .late_arrival) (h2 : t ≠ .irregular_lunch_departure)
    (h3 : t ≠ .late_lunch_return) (h4 : t ≠ .irregular_end_time) :
    countType (twoPairAnoms a b d) t = 0 :=
  countType_eq_zero (fun x hx => by
    rcases mem_twoPairAnoms hx with h | h | h | h <;> rw [h] <;>
      first
      | exact fun e => h1 e.symm
      | exact fun e => h2 e.symm
      | exact fun e => h3 e.symm
      | exact fun e => h4 e.symm)

theorem filter_twoPairAnoms_extra (a b : PunchRecord) (d : Int) :
    (twoPairAnoms a b d).filter (fun x => decide (x.atype = .extra_punches)) = [] := by
  rw [List.filter_eq_nil_iff]
  intro x hx
  rcases mem_twoPairAnoms hx with h | h | h | h <;> simp [h]

theorem pairCountAnoms_of_gt2 {recs : List PunchRecord} {d : Int}
    (h : 2 < recs.length) :
    pairCountAnoms recs d =
      [⟨.extra_punches, d, .low, none, some ((recs.length : Int) - 2)⟩] := by
  match recs, h with
  | a :: b :: c :: t, h =>
    rw [pairCountAnoms,
      if_neg (by simp only [List.length_cons, List.length_nil]; omega),
      if_neg (by simp only [List.length_cons, List.length_nil]; omega),
      if_pos (by simp only [List.length_cons, List.length_nil]; omega)]

theorem pairCountAnoms_of_two (a b : PunchRecord) (d : Int) :
    pairCountAnoms [a, b] d = twoPairAnoms a b d := rfl

/-- C5: per worked day the detector emits one `date_mismatch` (medium) per
punch pair with in-date ≠ out-date regardless of the day's pair count; one
`incomplete_day` (medium) iff the day has exactly one pair; one
`extra_punches` (low) with count = pairs − 2 iff the day has more than two
pairs, in which case no timing anomalies are emitted. -/
theorem per_day_pair_count_anomalies_correct (recs : List PunchRecord) (d : Int) :
    countType (dayAnomalies recs d) .date_mismatch =
      (recs.filter (fun r => decide (r.inDate ≠ r.outDate))).length ∧
    countType (dayAnomalies recs d) .incomplete_day =
      (if recs.length = 1 then 1 else 0) ∧
    ((dayAnomalies recs d).filter (fun a => decide (a.atype = .extra_punches)) =
      if 2 < recs.length then
        [⟨.extra_punches, d, .low, none, some ((recs.length : Int) - 2)⟩]
      else []) ∧
    (2 < recs.length →
      countType (dayAnomalies recs d) .late_arrival = 0 ∧
      countType (dayAnomalies recs d) .irregular_lunch_departure = 0 ∧
      countType (dayAnomalies recs d) .late_lunch_return = 0 ∧
      countType (dayAnomalies recs d) .irregular_end_time = 0) := by
  have hpc : ∀ t : AnomalyType, t ≠ .date_mismatch →
      countType (dayAnomalies recs d) t = countType (pairCountAnoms recs d) t := by
    intro t ht
    rw [dayAnomalies, countType_append, countType_dateMismatchAnoms_other ht,
      Nat.zero_add]
  refine ⟨?_, ?_, ?_, ?_⟩
  · rw [dayAnomalies, countType_append, countType_dateMismatchAnoms,
      countType_eq_zero (fun a ha => (mem_pairCountAnoms ha).1), Nat.add_zero]
  · rw [hpc _ (by simp)]
    match recs with
    | [] => rfl
    | [a] => rfl
    | [a, b] =>
      rw [pairCountAnoms_of_two]
      rw [if_neg (by simp only [List.length_cons, List.length_nil]; omega)]
      exact countType_twoPairAnoms_other (by simp) (by simp) (by simp) (by simp)
    | a :: b :: c :: t =>
      rw [pairCountAnoms_of_gt2 (by simp only [List.length_cons, List.length_nil]; omega),
        if_neg (by simp only [List.length_cons, List.length_nil]; omega)]
      simp [countType, List.filter]
  · rw [dayAnomalies, List.filter_append, filter_dateMismatchAnoms_other (by simp)]
    rw [List.nil_append]
    match recs with
    | [] => rfl
    | [a] => rfl
    | [a, b] =>
      rw [pairCountAnoms_of_two,
        if_neg (by simp only [List.length_cons, List.length_nil]; omega), filter_twoPairAnoms_extra]
    | a :: b :: c :: t =>
      rw [pairCountAnoms_of_gt2 (by simp only [List.length_cons, List.length_nil]; omega),
        if_pos (by simp only [List.length_cons, List.length_nil]; omega)]
      simp [List.filter]
  · intro hlen
    rw [hpc _ (by simp), hpc _ (by simp), hpc _ (by simp), hpc _ (by simp),
      pairCountAnoms_of_gt2 hlen]
    refine ⟨?_, ?_, ?_, ?_⟩ <;> exact countType_eq_zero (fun a ha => by
      simp only [List.mem_singleton] at ha
      simp [ha])

theorem twoPair_filter_late_arrival (a b : PunchRecord) (d : Int) :
    (twoPairAnoms a b d).filter (fun x => decide (x.atype = .late_arrival)) =
      if 480 + 7 < a.inMinutes then
        [⟨.late_arrival, d, .medium, some (a.inMinutes - 480), none⟩]
      else [] := by
  simp only [twoPairAnoms, List.filter_append, EXPECTED_MORNING_ARRIVAL,
    EXPECTED_LUNCH_DEPARTURE, EXPECTED_LUNCH_RETURN, EXPECTED_END_TIME_1,
    EXPECTED_END_TIME_2, BUFFER_MINUTES]
  norm_num
  split_ifs <;> simp_all [List.filter]

theorem twoPair_filter_lunch_departure (a b : PunchRecord) (d : Int) :
    (twoPairAnoms a b d).filter
        (fun x => decide (x.atype = .irregular_lunch_departure)) =
      if 7 < |a.outMinutes - 720| then
        [⟨.irregular_lunch_departure, d, .low, none, none⟩]
      else [] := by
  simp only [twoPairAnoms, List.filter_append, EXPECTED_MORNING_ARRIVAL,
    EXPECTED_LUNCH_DEPARTURE, EXPECTED_LUNCH_RETURN, EXPECTED_END_TIME_1,
    EXPECTED_END_TIME_2, BUFFER_MINUTES]
  norm_num
  split_ifs <;> simp_all [List.filter]

theorem twoPair_filter_lunch_return (a b : PunchRecord) (d : Int) :
    (twoPairAnoms a b d).filter (fun x => decide (x.atype = .late_lunch_return)) =
      if 750 + 7 < b.inMinutes then
        [⟨.late_lunch_return, d, .medium, some (b.inMinutes - 750), none⟩]
      else [] := by
  simp only [twoPairAnoms, List.filter_append, EXPECTED_MORNING_ARRIVAL,
    EXPECTED_LUNCH_DEPARTURE, EXPECTED_LUNCH_RETURN, EXPECTED_END_TIME_1,
    EXPECTED_END_TIME_2, BUFFER_MINUTES]
  norm_num
  split_ifs <;> simp_all [List.filter]

theorem twoPair_filter_end_time (a b : PunchRecord) (d : Int) :
    (twoPairAnoms a b d).filter (fun x => decide (x.atype = .irregular_end_time)) =
      if ¬(|b.outMinutes - 960| ≤ 7 ∨ |b.outMinutes - 990| ≤ 7) then
        [⟨.irregular_end_time, d, .low, none, none⟩]
      else [] := by
  simp only [twoPairAnoms, List.filter_append, EXPECTED_MORNING_ARRIVAL,
    EXPECTED_LUNCH_DEPARTURE, EXPECTED_LUNCH_RETURN, EXPECTED_END_TIME_1,
    EXPECTED_END_TIME_2, BUFFER_MINUTES]
  norm_num
  split_ifs <;> simp_all [List.filter]

/-- C3: on a worked day with exactly two punch pairs (sorted by in-time),
the detector treats the first pair as morning and the second as afternoon
positionally, and with buffer 7 emits `late_arrival` (medium,
minutes_late = in − 480) iff first in > 487; `irregular_lunch_departure`
(low) iff |first out − 720| > 7; `late_lunch_return` (medium,
minutes_late = in − 750) iff second in > 757 (never when early);
`irregular_end_time` (low) iff second out is within 7 of neither 960 nor
990. -/
theorem two_pair_timing_anomalies_correct (a b : PunchRecord) (d : Int)
    (hab : a.inMinutes ≤ b.inMinutes) :
    ((dayAnomalies (sortLe (fun x y => decide (x.inMinutes ≤ y.inMinutes)) [a, b]) d).filter
        (fun x => decide (x.atype = .late_arrival)) =
      (if 480 + 7 < a.inMinutes then
        [⟨.late_arrival, d, .medium, some (a.inMinutes - 480), none⟩]
      else [])) ∧
    ((dayAnomalies (sortLe (fun x y => decide (x.inMinutes ≤ y.inMinutes)) [a, b]) d).filter
        (fun x => decide (x.atype = .irregular_lunch_departure)) =
      (if 7 < |a.outMinutes - 720| then
        [⟨.irregular_lunch_departure, d, .low, none, none⟩]
      else [])) ∧
    ((dayAnomalies (sortLe (fun x y => decide (x.inMinutes ≤ y.inMinutes)) [a, b]) d).filter
        (fun x => decide (x.atype = .late_lunch_return)) =
      (if 750 + 7 < b.inMinutes then
        [⟨.late_lunch_return, d, .medium, some (b.inMinutes - 750), none⟩]
      else [])) ∧
    ((dayAnomalies (sortLe (fun x y => decide (x.inMinutes ≤ y.inMinutes)) [a, b]) d).filter
        (fun x => decide (x.atype = .irregular_end_time)) =
      (if ¬(|b.outMinutes - 960| ≤ 7 ∨ |b.outMinutes - 990| ≤ 7) then
        [⟨.irregular_end_time, d, .low, none, none⟩]
      else [])) := by
  have hs : sortLe (fun x y => decide (x.inMinutes ≤ y.inMinutes)) [a, b] = [a, b] :=
    sortLe_pair _ a b (by simpa using hab)
  rw [hs]
  refine ⟨?_, ?_, ?_, ?_⟩ <;>
    rw [dayAnomalies, List.filter_append, filter_dateMismatchAnoms_other (by simp),
      List.nil_append, pairCountAnoms_of_two]
  · exact twoPair_filter_late_arrival a b d
  · exact twoPair_filter_lunch_departure a b d
  · exact twoPair_filter_lunch_return a b d
  · exact twoPair_filter_end_time a b d

/-- Witness for C3 at the spec's example: arrival 08:10 (490 min, 10 late),
lunch 12:05p out, return 12:40p (760), leave 04:32p (992). -/
theorem two_pair_timing_anomalies_correct_witness :
    (PunchRecord.mk "E" 2 490 725 "08:10a" "12:05p" "x" "x").inMinutes ≤
      (PunchRecord.mk "E" 2 760 992 "12:40p" "04:32p" "x" "x").inMinutes ∧
    (((dayAnomalies (sortLe (fun x y => decide (x.inMinutes ≤ y.inMinutes))
        [PunchRecord.mk "E" 2 490 725 "08:10a" "12:05p" "x" "x",
         PunchRecord.mk "E" 2 760 992 "12:40p" "04:32p" "x" "x"]) 2).filter
        (fun x => decide (x.atype = .late_arrival)) =
      (if 480 + 7 < (PunchRecord.mk "E" 2 490 725 "08:10a" "12:05p" "x" "x").inMinutes then
        [⟨.late_arrival, 2, .medium,
          some ((PunchRecord.mk "E" 2 490 725 "08:10a" "12:05p" "x" "x").inMinutes - 480), none⟩]
      else [])) ∧
    (((dayAnomalies (sortLe (fun x y => decide (x.inMinutes ≤ y.inMinutes))
        [PunchRecord.mk "E" 2 490 725 "08:10a" "12:05p" "x" "x",
         PunchRecord.mk "E" 2 760 992 "12:40p" "04:32p" "x" "x"]) 2).filter
        (fun x => decide (x.atype = .irregular_lunch_departure)) =
      (if 7 < |(PunchRecord.mk "E" 2 490 725 "08:10a" "12:05p" "x" "x").outMinutes - 720| then
        [⟨.irregular_lunch_departure, 2, .low, none, none⟩]
      else []))) ∧
    (((dayAnomalies (sortLe (fun x y => decide (x.inMinutes ≤ y.inMinutes))
        [PunchRecord.mk "E" 2 490 725 "08:10a" "12:05p" "x" "x",
         PunchRecord.mk "E" 2 760 992 "12:40p" "04:32p" "x" "x"]) 2).filter
        (fun x => decide (x.atype = .late_lunch_return)) =
      (if 750 + 7 < (PunchRecord.mk "E" 2 760 992 "12:40p" "04:32p" "x" "x").inMinutes then
        [⟨.late_lunch_return, 2, .medium,
          some ((PunchRecord.mk "E" 2 760 992 "12:40p" "04:32p" "x" "x").inMinutes - 750), none⟩]
      else []))) ∧
    ((dayAnomalies (sortLe (fun x y => decide (x.inMinutes ≤ y.inMinutes))
        [PunchRecord.mk "E" 2 490 725 "08:10a" "12:05p" "x" "x",
         PunchRecord.mk "E" 2 760 992 "12:40p" "04:32p" "x" "x"]) 2).filter
        (fun x => decide (x.atype = .irregular_end_time)) =
      (if ¬(|(PunchRecord.mk "E" 2 760 992 "12:40p" "04:32p" "x" "x").outMinutes - 960| ≤ 7 ∨
            |(PunchRecord.mk "E" 2 760 992 "12:40p" "04:32p" "x" "x").outMinutes - 990| ≤ 7) then
        [⟨.irregular_end_time, 2, .low, none, none⟩]
      else []))) :=
  ⟨by decide,
   two_pair_timing_anomalies_correct
     (PunchRecord.mk "E" 2 490 725 "08:10a" "12:05p" "x" "x")
     (PunchRecord.mk "E" 2 760 992 "12:40p" "04:32p" "x" "x") 2 (by decide)⟩

/-- `all_dates = sorted(self.processed_data['date'].unique())` — the union
of dates any employee worked (src/main.py, generate_detailed_punch_heatmap,
"CHANGE REQUEST #4"). -/
def globalObservedDates (data : List PunchRecord) : List Int :=
  sortLe (fun a b => decide (a ≤ b)) (data.map (fun r => r.date)).dedup

theorem countTypeAt_missedMap (l : List Int) (hl : l.Nodup) (d : Int) :
    countTypeAt (l.map (fun x => (⟨.missed_day, x, .high, none, none⟩ : Anomaly)))
      .missed_day d = if d ∈ l then 1 else 0 := by
  induction l with
  | nil => simp [countTypeAt]
  | cons e t ih =>
    rcases List.nodup_cons.mp hl with ⟨het, hnt⟩
    rw [List.map_cons, countTypeAt, List.filter_cons]
    by_cases hed : e = d
    · subst hed
      rw [if_pos (by simp)]
      rw [List.length_cons]
      have h0 := ih hnt
      rw [countTypeAt, if_neg het] at h0
      rw [h0, if_pos (List.mem_cons_self e t)]
    · rw [if_neg (by simp [hed])]
      have h0 := ih hnt
      rw [countTypeAt] at h0
      rw [h0]
      by_cases hdt : d ∈ t
      · rw [if_pos hdt, if_pos (List.mem_cons.mpr (Or.inr hdt))]
      · rw [if_neg hdt, if_neg (by
          intro h
          rcases List.mem_cons.mp h with h | h
          · exact hed h.symm
          · exact hdt h)]

theorem countTypeAt_missedDayAnoms {expected : List Int} (worked : List Int)
    (d : Int) (hnd : expected.Nodup) :
    countTypeAt (missedDayAnoms expected worked) .missed_day d =
      if d ∈ expected ∧ d ∉ worked then 1 else 0 := by
  rw [missedDayAnoms, countTypeAt_missedMap _ (hnd.filter _) d]
  by_cases h : d ∈ expected ∧ d ∉ worked
  · rw [if_pos (List.mem_filter.mpr ⟨h.1, by simpa using h.2⟩), if_pos h]
  · rw [if_neg (fun hc => h ⟨(List.mem_filter.mp hc).1,
      by simpa using (List.mem_filter.mp hc).2⟩), if_neg h]

theorem countTypeAt_dayAnomalies_missed (recs : List PunchRecord) (d0 d : Int) :
    countTypeAt (dayAnomalies recs d0) .missed_day d = 0 :=
  countTypeAt_eq_zero (fun a ha => by
    rcases List.mem_append.mp ha with h | h
    · rw [mem_dateMismatchAnoms h]
      simp
    · exact (mem_pairCountAnoms h).2)

theorem countTypeAt_dayFlatMap_missed (recs : List PunchRecord)
    (worked : List Int) (d : Int) :
    countTypeAt (worked.flatMap (fun d0 => dayAnomalies (dayRecords recs d0) d0))
      .missed_day d = 0 :=
  countTypeAt_eq_zero (fun a ha => by
    rcases List.mem_flatMap.mp ha with ⟨d0, _, ha0⟩
    rcases List.mem_append.mp ha0 with h | h
    · rw [mem_dateMismatchAnoms h]
      simp
    · exact (mem_pairCountAnoms h).2)

/-- C2 counterexample: one employee whose only punch is on Monday day 0.
The global observed-date set is `[0]`, yet the code emits a `missed_day`
anomaly for Tuesday day 1 — absence is checked against the fixed Mon–Fri
calendar of the period, not against the global observed-date set. -/
theorem missed_day_not_restricted_to_observed_dates :
    countTypeAt (analyze_employee_period
        [⟨"E", 0, 474, 990, "07:54a", "04:30p", "a", "a"⟩] "E" 0 13).anomalies
      .missed_day 1 = 1 ∧
    (1 : Int) ∉ globalObservedDates
      [⟨"E", 0, 474, 990, "07:54a", "04:30p", "a", "a"⟩] := by
  constructor
  · decide
  · decide

/-- C2 (amended): a `missed_day` anomaly of severity high is emitted for
date `d` exactly when `d` is a Monday–Friday date of the period (the fixed
weekday calendar, regardless of the global observed-date set) absent from
the employee's own worked-dates set. -/
theorem missed_day_anomalies_correct (data : List PunchRecord) (e : String)
    (ps pe d : Int) (hne : periodRecords data e ps pe ≠ []) :
    countTypeAt (analyze_employee_period data e ps pe).anomalies .missed_day d =
      if ps ≤ d ∧ d ≤ pe ∧ d % 7 < 5 ∧
          d ∉ workedDatesList (periodRecords data e ps pe) then 1 else 0 := by
  rw [analyze_employee_period_of_ne hne]
  show countTypeAt (analyzePeriodAnoms (periodRecords data e ps pe) ps pe)
    .missed_day d = _
  rw [analyzePeriodAnoms, countTypeAt_append, countTypeAt_dayFlatMap_missed,
    Nat.add_zero,
    countTypeAt_missedDayAnoms _ d (expectedWorkDays_nodup ps pe)]
  by_cases hc : d ∈ expectedWorkDays ps pe ∧
      d ∉ workedDatesList (periodRecords data e ps pe)
  · rw [if_pos hc, if_pos ⟨(mem_expectedWorkDays.mp hc.1).1,
      (mem_expectedWorkDays.mp hc.1).2.1, (mem_expectedWorkDays.mp hc.1).2.2,
      hc.2⟩]
  · rw [if_neg hc, if_neg (by
      rintro ⟨h1, h2, h3, h4⟩
      exact hc ⟨mem_expectedWorkDays.mpr ⟨h1, h2, h3⟩, h4⟩)]

/-- Witness for C2's amended theorem at the counterexample data. -/
theorem missed_day_anomalies_correct_witness :
    periodRecords [⟨"E", 0, 474, 990, "07:54a", "04:30p", "a", "a"⟩] "E" 0 13 ≠ [] ∧
    countTypeAt (analyze_employee_period
        [⟨"E", 0, 474, 990, "07:54a", "04:30p", "a", "a"⟩] "E" 0 13).anomalies
      .missed_day 2 =
      if (0 : Int) ≤ 2 ∧ (2 : Int) ≤ 13 ∧ (2 : Int) % 7 < 5 ∧
          (2 : Int) ∉ workedDatesList (periodRecords
            [⟨"E", 0, 474, 990, "07:54a", "04:30p", "a", "a"⟩] "E" 0 13) then 1
      else 0 :=
  ⟨by decide,
   missed_day_anomalies_correct
     [⟨"E", 0, 474, 990, "07:54a", "04:30p", "a", "a"⟩] "E" 0 13 2 (by decide)⟩

theorem length_filter_split (p : α → Bool) (l : List α) :
    (l.filter p).length + (l.filter (fun x => !(p x))).length = l.length := by
  induction l with
  | nil => rfl
  | cons a t ih =>
    cases h : p a <;> simp [List.filter_cons, h] <;> omega

theorem countType_missedDayAnoms (expected worked : List Int) :
    countType (missedDayAnoms expected worked) .missed_day =
      (expected.filter (fun d => decide (d ∉ worked))).length := by
  rw [missedDayAnoms, countType, List.filter_eq_self.mpr, List.length_map]
  intro a ha
  rcases List.mem_map.mp ha with ⟨x, _, rfl⟩
  simp

theorem countType_dayFlatMap_missed (recs : List PunchRecord)
    (worked : List Int) :
    countType (worked.flatMap (fun d0 => dayAnomalies (dayRecords recs d0) d0))
      .missed_day = 0 :=
  countType_eq_zero (fun a ha => by
    rcases List.mem_flatMap.mp ha with ⟨d0, _, ha0⟩
    rcases List.mem_append.mp ha0 with h | h
    · rw [mem_dateMismatchAnoms h]
      simp
    · exact (mem_pairCountAnoms h).2)

/-- An employee who punches every day of the period, weekends included. -/
def weekendHeavyData : List PunchRecord :=
  (dateRange 0 13).map (fun d => ⟨"E", d, 474, 990, "07:54a", "04:30p", "a", "a"⟩)

/-- C10: with at least one punch in the window, `worked_days` counts the
distinct punched dates (weekends included), `missed_days` is
`total_days - worked_days` with no clamping (so the round trip
`worked + missed = total` always holds, `missed_days` can go negative —
`weekendHeavyData` drives it to −4 — and is strictly smaller than the
number of `missed_day` anomalies whenever a weekend date was worked). -/
theorem worked_missed_days_accounting (data : List PunchRecord) (e : String)
    (ps pe : Int) (hne : periodRecords data e ps pe ≠ []) :
    (analyze_employee_period data e ps pe).workedDays =
      ((periodRecords data e ps pe).map (fun r => r.date)).dedup.length ∧
    (analyze_employee_period data e ps pe).missedDays =
      ((analyze_employee_period data e ps pe).totalDays : Int) -
        ((analyze_employee_period data e ps pe).workedDays : Int) ∧
    ((analyze_employee_period data e ps pe).workedDays : Int) +
        (analyze_employee_period data e ps pe).missedDays =
      ((analyze_employee_period data e ps pe).totalDays : Int) ∧
    (analyze_employee_period weekendHeavyData "E" 0 13).missedDays < 0 ∧
    ((∃ r ∈ periodRecords data e ps pe, 5 ≤ r.date % 7) →
      (analyze_employee_period data e ps pe).missedDays <
        (countType (analyze_employee_period data e ps pe).anomalies
          .missed_day : Int)) := by
  rw [analyze_employee_period_of_ne hne]
  refine ⟨?_, by ring, by ring, by decide, ?_⟩
  · show (workedDatesList (periodRecords data e ps pe)).length = _
    rw [workedDatesList, sortLe_length]
  · rintro ⟨r, hr, hwk⟩
    show ((expectedWorkDays ps pe).length : Int) -
        ((workedDatesList (periodRecords data e ps pe)).length : Int) <
      (countType (analyzePeriodAnoms (periodRecords data e ps pe) ps pe)
        .missed_day : Int)
    rw [analyzePeriodAnoms, countType_append, countType_dayFlatMap_missed,
      Nat.add_zero, countType_missedDayAnoms]
    have hsplit := length_filter_split
      (fun d => decide (d ∈ workedDatesList (periodRecords data e ps pe)))
      (expectedWorkDays ps pe)
    have hlt : ((expectedWorkDays ps pe).filter
        (fun d => decide (d ∈ workedDatesList (periodRecords data e ps pe)))).length <
        (workedDatesList (periodRecords data e ps pe)).length := by
      have hFnd : ((expectedWorkDays ps pe).filter
          (fun d => decide (d ∈ workedDatesList (periodRecords data e ps pe)))).Nodup :=
        (expectedWorkDays_nodup ps pe).filter _
      have hWnd := workedDatesList_nodup (periodRecords data e ps pe)
      have hsub : ((expectedWorkDays ps pe).filter
          (fun d => decide (d ∈ workedDatesList (periodRecords data e ps pe)))).toFinset ⊂
          (workedDatesList (periodRecords data e ps pe)).toFinset := by
        constructor
        · intro x hx
          rw [List.mem_toFinset] at hx ⊢
          exact of_decide_eq_true (List.mem_filter.mp hx).2
        · intro hcon
          have hrd : r.date ∈ (workedDatesList (periodRecords data e ps pe)).toFinset := by
            rw [List.mem_toFinset, mem_workedDatesList]
            exact ⟨r, hr, rfl⟩
          have := hcon hrd
          rw [List.mem_toFinset, List.mem_filter] at this
          have hexp := mem_expectedWorkDays.mp (this.1)
          omega
      have hcard := Finset.card_lt_card hsub
      rwa [List.toFinset_card_of_nodup hFnd, List.toFinset_card_of_nodup hWnd]
        at hcard
    have hconv : ((expectedWorkDays ps pe).filter
        (fun d => decide (d ∉ workedDatesList (periodRecords data e ps pe)))) =
        ((expectedWorkDays ps pe).filter
          (fun d => !(decide (d ∈ workedDatesList (periodRecords data e ps pe))))) := by
      simp only [decide_not]
    rw [hconv]
    omega

/-- Witness for C10 at the weekend-heavy data (days 0..13 all worked,
day 6 is a Saturday). -/
theorem worked_missed_days_accounting_witness :
    periodRecords weekendHeavyData "E" 0 13 ≠ [] ∧
    (∃ r ∈ periodRecords weekendHeavyData "E" 0 13, 5 ≤ r.date % 7) ∧
    ((analyze_employee_period weekendHeavyData "E" 0 13).workedDays =
      ((periodRecords weekendHeavyData "E" 0 13).map (fun r => r.date)).dedup.length ∧
    (analyze_employee_period weekendHeavyData "E" 0 13).missedDays =
      ((analyze_employee_period weekendHeavyData "E" 0 13).totalDays : Int) -
        ((analyze_employee_period weekendHeavyData "E" 0 13).workedDays : Int) ∧
    ((analyze_employee_period weekendHeavyData "E" 0 13).workedDays : Int) +
        (analyze_employee_period weekendHeavyData "E" 0 13).missedDays =
      ((analyze_employee_period weekendHeavyData "E" 0 13).totalDays : Int) ∧
    (analyze_employee_period weekendHeavyData "E" 0 13).missedDays < 0 ∧
    ((∃ r ∈ periodRecords weekendHeavyData "E" 0 13, 5 ≤ r.date % 7) →
      (analyze_employee_period weekendHeavyData "E" 0 13).missedDays <
        (countType (analyze_employee_period weekendHeavyData "E" 0 13).anomalies
          .missed_day : Int))) :=
  ⟨by decide, by decide,
   worked_missed_days_accounting weekendHeavyData "E" 0 13 (by decide)⟩

/-- The severity banding chain that the heat-map builder repeats inline for
every slot: ≤5 acceptable, ≤7 minor, ≤11 major, >11 significant. -/
def severityBandColor (diff : Int) : String :=
  if diff ≤ 5 then COLOR_ACCEPTABLE
  else if diff ≤ 7 then COLOR_MINOR
  else if diff ≤ 11 then COLOR_MAJOR
  else COLOR_SIGNIFICANT

theorem heatmapDay_nil :
    heatmapDay [] = (⟨"N/A", "N/A", "N/A", "N/A"⟩,
      ⟨COLOR_ABSENT, COLOR_ABSENT, COLOR_ABSENT, COLOR_ABSENT⟩) := rfl

theorem heatmapDay_single_morning (a : PunchRecord) (h : a.inMinutes < 660) :
    heatmapDay [a] =
      (⟨a.inTimeStr, a.outTimeStr, "", ""⟩,
       ⟨severityBandColor |a.inMinutes - 480|,
        if a.inDate ≠ a.outDate then COLOR_MISSED_OUT
        else severityBandColor |a.outMinutes - 720|,
        COLOR_MISSING, COLOR_MISSING⟩) := by
  rw [heatmapDay, if_pos h]
  rfl

theorem heatmapDay_single_afternoon (a : PunchRecord) (h : ¬(a.inMinutes < 660)) :
    heatmapDay [a] =
      (⟨"", "", a.inTimeStr, a.outTimeStr⟩,
       ⟨COLOR_MISSING, COLOR_MISSING,
        severityBandColor |a.inMinutes - 750|,
        if a.inDate ≠ a.outDate then COLOR_MISSED_OUT
        else severityBandColor (min (|a.outMinutes - 960|) (|a.outMinutes - 990|))⟩) := by
  rw [heatmapDay, if_neg h]
  rfl

theorem heatmapDay_pair_morning (a b : PunchRecord) (h : a.inMinutes < 660) :
    heatmapDay [a, b] =
      (⟨a.inTimeStr, a.outTimeStr, b.inTimeStr, b.outTimeStr⟩,
       ⟨severityBandColor |a.inMinutes - 480|,
        if a.inDate ≠ a.outDate then COLOR_MISSED_OUT
        else severityBandColor |a.outMinutes - 720|,
        severityBandColor |b.inMinutes - 750|,
        if b.inDate ≠ b.outDate then COLOR_MISSED_OUT
        else severityBandColor (min (|b.outMinutes - 960|) (|b.outMinutes - 990|))⟩) := by
  rw [heatmapDay, if_pos h]
  rfl

theorem heatmapDay_pair_afternoon (a b : PunchRecord) (h : ¬(a.inMinutes < 660)) :
    heatmapDay [a, b] =
      (⟨"", "", a.inTimeStr, a.outTimeStr⟩,
       ⟨COLOR_MISSING, COLOR_MISSING,
        severityBandColor |a.inMinutes - 750|,
        if a.inDate ≠ a.outDate then COLOR_MISSED_OUT
        else severityBandColor (min (|a.outMinutes - 960|) (|a.outMinutes - 990|))⟩) := by
  rw [heatmapDay, if_neg h]
  rfl

theorem heatmapDay_flagged (a b c : PunchRecord) (t : List PunchRecord) :
    (heatmapDay (a :: b :: c :: t)).2 =
      ⟨COLOR_FLAGGED, COLOR_FLAGGED, COLOR_FLAGGED, COLOR_FLAGGED⟩ ∧
    (heatmapDay (a :: b :: c :: t)).1.aftOut =
      (if a.inMinutes < 660 then b.outTimeStr else a.outTimeStr) := by
  rw [heatmapDay]
  have hf : (a :: b :: c :: t).length > 2 := by
    simp only [List.length_cons]
    omega
  by_cases h : a.inMinutes < 660
  · rw [if_pos h]
    constructor
    · show (if (a :: b :: c :: t).length > 2 then _ else _) = _
      rw [if_pos hf]
      show (if (a :: b :: c :: t).length > 2 then _ else _) = _
      rw [if_pos hf]
      simp [hf]
    · rw [if_pos h]
  · rw [if_neg h]
    constructor
    · show (if (a :: b :: c :: t).length > 2 then _ else _) = _
      rw [if_pos hf]
      simp [hf]
    · rw [if_neg h]

/-- C6: the slot classifier assigns the first punch pair to the morning
slots iff its in-time is strictly before 660 minutes (otherwise to the
afternoon slots); a second pair goes to the afternoon slots only when the
first was morning (otherwise it is dropped); a day with more than 2 pairs
is flagged on all four slots, severity classification is skipped, and the
end-of-day cell renders the textual flag note. -/
theorem slot_assignment_correct :
    (∀ a : PunchRecord,
        (generate_detailed_punch_heatmap_day [a]).1 =
          if a.inMinutes < 660 then ⟨a.inTimeStr, a.outTimeStr, "", ""⟩
          else ⟨"", "", a.inTimeStr, a.outTimeStr⟩) ∧
    (∀ a b : PunchRecord, a.inMinutes ≤ b.inMinutes →
        (generate_detailed_punch_heatmap_day [a, b]).1 =
          if a.inMinutes < 660 then
            ⟨a.inTimeStr, a.outTimeStr, b.inTimeStr, b.outTimeStr⟩
          else ⟨"", "", a.inTimeStr, a.outTimeStr⟩) ∧
    (∀ recs : List PunchRecord, 2 < recs.length →
        (generate_detailed_punch_heatmap_day recs).2 =
          ⟨COLOR_FLAGGED, COLOR_FLAGGED, COLOR_FLAGGED, COLOR_FLAGGED⟩ ∧
        ((generate_detailed_punch_heatmap_day recs).1.aftOut ≠ "" →
          cellText (generate_detailed_punch_heatmap_day recs).1.aftOut
            (generate_detailed_punch_heatmap_day recs).2.aftOut true =
              flagNoteText)) := by
  refine ⟨?_, ?_, ?_⟩
  · intro a
    by_cases h : a.inMinutes < 660
    · rw [if_pos h, generate_detailed_punch_heatmap_day, sortLe_singleton,
        heatmapDay_single_morning a h]
    · rw [if_neg h, generate_detailed_punch_heatmap_day, sortLe_singleton,
        heatmapDay_single_afternoon a h]
  · intro a b hab
    rw [generate_detailed_punch_heatmap_day, sortLe_pair _ a b (by simpa using hab)]
    by_cases h : a.inMinutes < 660
    · rw [if_pos h, heatmapDay_pair_morning a b h]
    · rw [if_neg h, heatmapDay_pair_afternoon a b h]
  · intro recs hlen
    rw [generate_detailed_punch_heatmap_day]
    have hlen2 : 2 < (sortLe (fun a b => decide (a.inMinutes ≤ b.inMinutes)) recs).length := by
      rw [sortLe_length]
      exact hlen
    rcases hs : sortLe (fun a b => decide (a.inMinutes ≤ b.inMinutes)) recs with
      _ | ⟨a, _ | ⟨b, _ | ⟨c, t⟩⟩⟩ <;> rw [hs] at hlen2 <;>
      simp only [List.length_cons, List.length_nil] at hlen2
    · omega
    · omega
    · omega
    · rw [hs]
      have hfl := heatmapDay_flagged a b c t
      refine ⟨hfl.1, ?_⟩
      intro hne
      rw [hfl.1]
      rw [cellText, if_pos hne, if_pos ⟨rfl, rfl⟩]

/-- C7: for every filled slot on a non-flagged day the color comes from the
banding of the absolute deviation from the slot's expected time (arrival
480, lunch departure 720, lunch return 750, end of day the minimum
distance to 960 or 990), with inclusive boundaries 5/7/11, and a pair
whose in-date differs from its out-date forces that pair's out slot to the
missed-out-punch color over the numeric band. -/
theorem severity_band_correct :
    (∀ diff : Int,
        (severityBandColor diff = COLOR_ACCEPTABLE ↔ diff ≤ 5) ∧
        (severityBandColor diff = COLOR_MINOR ↔ 5 < diff ∧ diff ≤ 7) ∧
        (severityBandColor diff = COLOR_MAJOR ↔ 7 < diff ∧ diff ≤ 11) ∧
        (severityBandColor diff = COLOR_SIGNIFICANT ↔ 11 < diff)) ∧
    (∀ a : PunchRecord, a.inMinutes < 660 →
        (heatmapDay [a]).2.mornIn = severityBandColor |a.inMinutes - 480| ∧
        (heatmapDay [a]).2.mornOut =
          (if a.inDate ≠ a.outDate then COLOR_MISSED_OUT
           else severityBandColor |a.outMinutes - 720|)) ∧
    (∀ a : PunchRecord, ¬(a.inMinutes < 660) →
        (heatmapDay [a]).2.aftIn = severityBandColor |a.inMinutes - 750| ∧
        (heatmapDay [a]).2.aftOut =
          (if a.inDate ≠ a.outDate then COLOR_MISSED_OUT
           else severityBandColor (min (|a.outMinutes - 960|) (|a.outMinutes - 990|)))) ∧
    (∀ a b : PunchRecord, a.inMinutes < 660 →
        (heatmapDay [a, b]).2.mornIn = severityBandColor |a.inMinutes - 480| ∧
        (heatmapDay [a, b]).2.mornOut =
          (if a.inDate ≠ a.outDate then COLOR_MISSED_OUT
           else severityBandColor |a.outMinutes - 720|) ∧
        (heatmapDay [a, b]).2.aftIn = severityBandColor |b.inMinutes - 750| ∧
        (heatmapDay [a, b]).2.aftOut =
          (if b.inDate ≠ b.outDate then COLOR_MISSED_OUT
           else severityBandColor (min (|b.outMinutes - 960|) (|b.outMinutes - 990|)))) := by
  refine ⟨?_, ?_, ?_, ?_⟩
  · intro diff
    refine ⟨?_, ?_, ?_, ?_⟩ <;>
      · rw [severityBandColor]
        split_ifs <;> simp [COLOR_ACCEPTABLE, COLOR_MINOR, COLOR_MAJOR,
          COLOR_SIGNIFICANT] <;> omega
  · intro a h
    rw [heatmapDay_single_morning a h]
    exact ⟨rfl, rfl⟩
  · intro a h
    rw [heatmapDay_single_afternoon a h]
    exact ⟨rfl, rfl⟩
  · intro a b h
    rw [heatmapDay_pair_morning a b h]
    exact ⟨rfl, rfl, rfl, rfl⟩

/-- C8 counterexample: the spec's own single-pair example (in 07:54a = 474,
out 04:32p = 992) leaves the lunch-departure slot *filled* with the pair's
out-time, not empty — the first pair supplies both morning slots. -/
theorem single_pair_fills_lunch_departure :
    (heatmapDay [⟨"E", 2, 474, 992, "07:54a", "04:32p", "a", "a"⟩]).1.mornOut =
      "04:32p" ∧
    (heatmapDay [⟨"E", 2, 474, 992, "07:54a", "04:32p", "a", "a"⟩]).1.mornOut ≠
      "" := by
  constructor
  · decide
  · decide

/-- C8 (amended): a day whose only pair has in-time < 660 fills both
morning slots (arrival with the in-time, lunch departure with the
out-time); both afternoon slots stay empty in the missing-data state,
which is distinct from the absent state of a day with no punches. -/
theorem single_morning_pair_slots_correct (a : PunchRecord)
    (h : a.inMinutes < 660) :
    (heatmapDay [a]).1 = ⟨a.inTimeStr, a.outTimeStr, "", ""⟩ ∧
    (heatmapDay [a]).2.aftIn = COLOR_MISSING ∧
    (heatmapDay [a]).2.aftOut = COLOR_MISSING ∧
    COLOR_MISSING ≠ COLOR_ABSENT ∧
    (heatmapDay []).1 = ⟨"N/A", "N/A", "N/A", "N/A"⟩ ∧
    (heatmapDay []).2 =
      ⟨COLOR_ABSENT, COLOR_ABSENT, COLOR_ABSENT, COLOR_ABSENT⟩ := by
  rw [heatmapDay_single_morning a h]
  exact ⟨rfl, rfl, rfl, by decide, rfl, rfl⟩

/-- Witness for C8's amended theorem at the spec's example pair. -/
theorem single_morning_pair_slots_correct_witness :
    (PunchRecord.mk "E" 2 474 992 "07:54a" "04:32p" "a" "a").inMinutes < 660 ∧
    ((heatmapDay [PunchRecord.mk "E" 2 474 992 "07:54a" "04:32p" "a" "a"]).1 =
      ⟨(PunchRecord.mk "E" 2 474 992 "07:54a" "04:32p" "a" "a").inTimeStr,
       (PunchRecord.mk "E" 2 474 992 "07:54a" "04:32p" "a" "a").outTimeStr, "", ""⟩ ∧
    (heatmapDay [PunchRecord.mk "E" 2 474 992 "07:54a" "04:32p" "a" "a"]).2.aftIn =
      COLOR_MISSING ∧
    (heatmapDay [PunchRecord.mk "E" 2 474 992 "07:54a" "04:32p" "a" "a"]).2.aftOut =
      COLOR_MISSING ∧
    COLOR_MISSING ≠ COLOR_ABSENT ∧
    (heatmapDay ([] : List PunchRecord)).1 = ⟨"N/A", "N/A", "N/A", "N/A"⟩ ∧
    (heatmapDay ([] : List PunchRecord)).2 =
      ⟨COLOR_ABSENT, COLOR_ABSENT, COLOR_ABSENT, COLOR_ABSENT⟩) :=
  ⟨by decide,
   single_morning_pair_slots_correct
     (PunchRecord.mk "E" 2 474 992 "07:54a" "04:32p" "a" "a") (by decide)⟩

/-! C4 helper lemmas: character classes, stripping, splitting, parsing. -/

theorem toLower_of_isDigit {c : Char} (h : c.isDigit = true) : c.toLower = c := by
  simp only [Char.isDigit, Bool.and_eq_true, decide_eq_true_eq] at h
  rw [Char.toLower, if_neg]
  rintro ⟨h1, h2⟩
  have hle : c.val ≤ 57 := h.2
  have : c.toNat ≤ 57 := by
    rw [Char.toNat]
    exact UInt32.toNat_le_of_le (by norm_num [UInt32.size]) hle
  omega

theorem isPySpace_of_isDigit {c : Char} (h : c.isDigit = true) :
    isPySpace c = false := by
  rw [isPySpace]
  simp only [decide_eq_false_iff_not]
  rintro (rfl | rfl | rfl | rfl | rfl | rfl) <;> simp at h

theorem ne_colon_of_isDigit {c : Char} (h : c.isDigit = true) : c ≠ ':' := by
  rintro rfl
  simp at h

theorem dropWhile_eq_self_of_not_head {p : α → Bool} {l : List α}
    (h : ∀ x ∈ l, p x = false) : l.dropWhile p = l := by
  cases l with
  | nil => rfl
  | cons a t =>
    rw [List.dropWhile_cons, if_neg]
    simp [h a (List.mem_cons_self a t)]

theorem pyStrip_eq_self {l : List Char} (h : ∀ x ∈ l, isPySpace x = false) :
    pyStrip l = l := by
  rw [pyStrip, dropWhile_eq_self_of_not_head h,
    dropWhile_eq_self_of_not_head (fun x hx => h x (List.mem_reverse.mp hx)),
    List.reverse_reverse]

theorem splitOnChar_ne_nil (sep : Char) (l : List Char) :
    splitOnChar sep l ≠ [] := by
  cases l with
  | nil => simp [splitOnChar]
  | cons a t =>
    rw [splitOnChar]
    cases hst : splitOnChar sep t with
    | nil => simp
    | cons g gs =>
      show ¬(if a = sep then [] :: g :: gs else (a :: g) :: gs) = []
      split_ifs <;> simp

theorem splitOnChar_no_sep {sep : Char} {l : List Char} (h : sep ∉ l) :
    splitOnChar sep l = [l] := by
  induction l with
  | nil => rfl
  | cons a t ih =>
    rw [splitOnChar, ih (fun hm => h (List.mem_cons.mpr (Or.inr hm)))]
    show (if a = sep then [[], t] else [a :: t]) = [a :: t]
    rw [if_neg (fun he => h (by rw [← he]; exact List.mem_cons_self a t))]

theorem splitOnChar_append {sep : Char} {xs : List Char} (ys : List Char)
    (h : sep ∉ xs) :
    splitOnChar sep (xs ++ sep :: ys) = xs :: splitOnChar sep ys := by
  induction xs with
  | nil =>
    rw [List.nil_append, splitOnChar]
    rcases hys : splitOnChar sep ys with _ | ⟨g, gs⟩
    · exact absurd hys (splitOnChar_ne_nil sep ys)
    · show (if sep = sep then [] :: g :: gs else (sep :: g) :: gs) = [] :: g :: gs
      rw [if_pos rfl]
  | cons a t ih =>
    rw [List.cons_append, splitOnChar,
      ih (fun hm => h (List.mem_cons.mpr (Or.inr hm)))]
    show (if a = sep then [] :: t :: splitOnChar sep ys
          else (a :: t) :: splitOnChar sep ys) = (a :: t) :: splitOnChar sep ys
    rw [if_neg (fun he => h (by rw [← he]; exact List.mem_cons_self a t))]

theorem pyDigits_props {l : List Char} {n : Nat} (h : pyDigits l = some n) :
    l ≠ [] ∧ ∀ x ∈ l, x.isDigit = true := by
  rw [pyDigits] at h
  split_ifs at h with hc
  refine ⟨hc.1, fun x hx => ?_⟩
  have := hc.2
  rw [List.all_eq_true] at this
  simpa using this x hx

theorem pyInt_of_digits {l : List Char} {n : Nat} (h : pyDigits l = some n) :
    pyInt l = some (n : Int) := by
  obtain ⟨hne, hdig⟩ := pyDigits_props h
  match l, hne with
  | d :: rest, _ =>
    have hd : d.isDigit = true := hdig d (List.mem_cons_self d rest)
    have hstrip : pyStrip (d :: rest) = d :: rest :=
      pyStrip_eq_self (fun x hx => isPySpace_of_isDigit (hdig x hx))
    rw [pyInt, hstrip]
    change (if d = '-' then _ else _) = _
    rw [if_neg (fun he => by rw [he] at hd; simp at hd),
      if_neg (fun he => by rw [he] at hd; simp at hd), h]
    rfl

theorem map_toLower_digits {l : List Char} (h : ∀ x ∈ l, x.isDigit = true) :
    l.map Char.toLower = l := by
  rw [List.map_congr_left (fun a ha => toLower_of_isDigit (h a ha))]
  exact List.map_id l

theorem time_to_minutes_token (hs ms : List Char) (c : Char) (h m : Nat)
    (hh : pyDigits hs = some h) (hm : pyDigits ms = some m)
    (hc : c = 'a' ∨ c = 'p' ∨ c = 'A' ∨ c = 'P') :
    time_to_minutes ⟨hs ++ ':' :: ms ++ [c]⟩ =
      some ((if c = 'p' ∨ c = 'P' then
              (if h = 12 then (12 : Int) else (h : Int) + 12)
             else (if h = 12 then 0 else (h : Int))) * 60 + (m : Int)) := by
  obtain ⟨hsne, hsdig⟩ := pyDigits_props hh
  obtain ⟨msne, msdig⟩ := pyDigits_props hm
  have hnospace : ∀ x ∈ hs ++ ':' :: ms ++ [c], isPySpace x = false := by
    intro x hx
    rcases List.mem_append.mp hx with hx | hx
    · rcases List.mem_append.mp hx with hx | hx
      · exact isPySpace_of_isDigit (hsdig x hx)
      · rcases List.mem_cons.mp hx with rfl | hx
        · decide
        · exact isPySpace_of_isDigit (msdig x hx)
    · rcases List.mem_singleton.mp hx with rfl
      rcases hc with rfl | rfl | rfl | rfl <;> decide
  have hdata : (String.mk (hs ++ ':' :: ms ++ [c])).data =
      hs ++ ':' :: ms ++ [c] := rfl
  have hstrip : pyStrip (hs ++ ':' :: ms ++ [c]) = hs ++ ':' :: ms ++ [c] :=
    pyStrip_eq_self hnospace
  have hmap : (hs ++ ':' :: ms ++ [c]).map Char.toLower =
      hs ++ ':' :: ms ++ [Char.toLower c] := by
    rw [List.map_append, List.map_append, List.map_cons,
      map_toLower_digits hsdig, map_toLower_digits msdig]
    rw [show Char.toLower ':' = ':' from by decide]
    rw [List.map_singleton]
  have hlast : (hs ++ ':' :: ms ++ [Char.toLower c]).getLast? =
      some (Char.toLower c) := List.getLast?_concat _
  have hdropl : (hs ++ ':' :: ms ++ [Char.toLower c]).dropLast =
      hs ++ ':' :: ms := List.dropLast_concat
  have hclower : Char.toLower c = 'a' ∨ Char.toLower c = 'p' := by
    rcases hc with rfl | rfl | rfl | rfl
    · exact Or.inl (by decide)
    · exact Or.inr (by decide)
    · exact Or.inl (by decide)
    · exact Or.inr (by decide)
  have hcolonhs : ':' ∉ hs := fun hmem => ne_colon_of_isDigit (hsdig _ hmem) rfl
  have hcolonms : ':' ∉ ms := fun hmem => ne_colon_of_isDigit (msdig _ hmem) rfl
  have hsplitAll : splitOnChar ':' (hs ++ ':' :: ms) = [hs, ms] := by
    rw [splitOnChar_append ms hcolonhs, splitOnChar_no_sep hcolonms]
  simp only [time_to_minutes, hdata, hstrip, hmap, hlast, hdropl, hsplitAll,
    pyInt_of_digits hh, pyInt_of_digits hm, if_pos hclower]
  rcases hc with rfl | rfl | rfl | rfl <;>
    by_cases h12 : h = 12 <;>
      (simp [h12, show Char.toLower 'a' = 'a' from by decide,
        show Char.toLower 'p' = 'p' from by decide,
        show Char.toLower 'A' = 'a' from by decide,
        show Char.toLower 'P' = 'p' from by decide] <;> omega)

/-- C4 counterexample: `"13:30a"` (hour 13, outside 1–12) and `"0:99a"`
(hour 0, minute 99) are not valid tokens, yet the normalizer returns a
value instead of failing — there is no digit-range validation. -/
theorem time_to_minutes_no_range_check :
    time_to_minutes "13:30a" = some 810 ∧ time_to_minutes "0:99a" = some 99 := by
  constructor
  · decide
  · decide

/-- C4 (amended): every token `<hours>:<minutes>` followed by `a`/`p`
(case-insensitive) whose two fields are digit strings maps to minutes since
midnight with 12a→0, 12p staying 12, and +12 hours for `p` when the hour is
not 12 (`"12:00a"`→0, `"12:00p"`→720, `"07:54a"`→474, `"04:30p"`→990);
the empty string, any input without a trailing a/p after strip/lowercase,
and inputs whose time part does not split into exactly two
`int`-parsable fields fail — but out-of-range hours or minutes are not
rejected (see the counterexample). -/
theorem time_to_minutes_correct :
    (∀ (hs ms : List Char) (c : Char) (h m : Nat),
        pyDigits hs = some h → pyDigits ms = some m →
        1 ≤ h → h ≤ 12 → m ≤ 59 →
        (c = 'a' ∨ c = 'p' ∨ c = 'A' ∨ c = 'P') →
        time_to_minutes ⟨hs ++ ':' :: ms ++ [c]⟩ =
          some ((if c = 'p' ∨ c = 'P' then
                  (if h = 12 then (12 : Int) else (h : Int) + 12)
                 else (if h = 12 then 0 else (h : Int))) * 60 + (m : Int))) ∧
    time_to_minutes "12:00a" = some 0 ∧
    time_to_minutes "12:00p" = some 720 ∧
    time_to_minutes "07:54a" = some 474 ∧
    time_to_minutes "04:30p" = some 990 ∧
    time_to_minutes "" = none ∧
    (∀ (s : String) (lastc : Char),
        ((pyStrip s.data).map Char.toLower).getLast? = some lastc →
        lastc ≠ 'a' → lastc ≠ 'p' → time_to_minutes s = none) ∧
    time_to_minutes "0430p" = none ∧
    time_to_minutes "4:3:0p" = none ∧
    time_to_minutes "4:xxp" = none := by
  refine ⟨?_, by decide, by decide, by decide, by decide, by decide, ?_,
    by decide, by decide, by decide⟩
  · intro hs ms c h m hh hm _ _ _ hc
    exact time_to_minutes_token hs ms c h m hh hm hc
  · intro s lastc hl hna hnp
    simp only [time_to_minutes, hl]
    rw [if_neg (fun hor => hor.elim hna hnp)]

end TimeClock
